import Mathlib

/-!
Shallow embedding of the documentation-comment parser of
`src/app/routes/docs.$.tsx` (functions `parseJSDoc`, `saveCurrentSection`,
`extractDocsAndCode`, and the route `loader`).

Text is modelled as `List Char`; `"...".data` injects a Lean string literal.
JavaScript's `String.prototype.trim` / regex `\s` whitespace class is modelled
on its ASCII part (all inputs of this repository are ASCII).
-/

/-- Text, as the list of its characters. -/
abbrev Str := List Char

/-- The JavaScript whitespace class (`trim`, `\s`), restricted to ASCII. -/
def isWS (c : Char) : Bool :=
  c = ' ' || c = '\t' || c = '\n' || c = '\r' || c = '\x0b' || c = '\x0c'

/-- Model of `s.trim()`: drop whitespace from both ends. -/
def trim (s : Str) : Str :=
  ((s.dropWhile isWS).reverse.dropWhile isWS).reverse

/-- Model of `s.startsWith(p)`. -/
def startsWith : Str → Str → Bool
  | _, [] => true
  | [], _ :: _ => false
  | c :: s, p :: ps => c = p && startsWith s ps

/-- Model of `s.replace(/^\*\s?/, "")`: strip one leading `*` and at most one
whitespace character after it (line 52 of `docs.$.tsx`). -/
def stripStar : Str → Str
  | '*' :: c :: rest => if isWS c then rest else c :: rest
  | ['*'] => []
  | s => s

/-- Model of `s.split("\n")` (never returns an empty list; `"".split` is `[""]`). -/
def splitNL : Str → List Str
  | [] => [[]]
  | c :: rest =>
    match splitNL rest with
    | [] => [[]]
    | l :: ls => if c = '\n' then [] :: l :: ls else (c :: l) :: ls

/-- Model of `buffer.join("\n")`. -/
def joinNL : List Str → Str
  | [] => []
  | [l] => l
  | l :: l2 :: ls => l ++ '\n' :: joinNL (l2 :: ls)

/-- The closed enumeration of section kinds (interface `DocSection.type`). -/
inductive SectionType where
  | description
  | example
  | param
  | returns
  | limitations
  | performance
  | remarks
  deriving DecidableEq

/-- A documentation section (interface `DocSection`). -/
structure DocSection where
  type : SectionType
  title : Str
  content : Str
  deriving DecidableEq

/-- The implicit description section of line 112-118 / 104-108. -/
def descSection : DocSection :=
  ⟨SectionType.description, "Description".data, []⟩

/-- The `switch (tag)` table of lines 68-109: tag name to fresh section. -/
def sectionForTag (tag : Str) : DocSection :=
  if tag = "example".data then ⟨SectionType.example, "Example Usage".data, []⟩
  else if tag = "param".data then ⟨SectionType.param, "Parameters".data, []⟩
  else if tag = "returns".data then ⟨SectionType.returns, "Returns".data, []⟩
  else if tag = "limitations".data then
    ⟨SectionType.limitations, "Limitations".data, []⟩
  else if tag = "performance".data then
    ⟨SectionType.performance, "Performance Considerations".data, []⟩
  else if tag = "remarks".data then
    ⟨SectionType.remarks, "Additional Notes".data, []⟩
  else descSection

/-- The mutable state of `parseJSDoc`'s loop (lines 25-30). -/
structure PState where
  sections : List DocSection
  currentSection : Option DocSection
  buffer : List Str
  isInCodeBlock : Bool
  deriving DecidableEq

/-- Model of `saveCurrentSection` (lines 32-49): flush the buffered lines into the
current section and append it, wrapping example content in a ```tsx fence
unless it already starts with a fence. -/
def saveCurrentSection (st : PState) : PState :=
  match st.currentSection with
  | none => st
  | some cs =>
    if st.buffer.length > 0 then
      let content := trim (joinNL st.buffer)
      let newContent :=
        if cs.type = SectionType.example then
          if startsWith content "```".data then content
          else "```tsx\n".data ++ content ++ "\n```".data
        else content
      ⟨st.sections ++ [⟨cs.type, cs.title, newContent⟩],
        some ⟨cs.type, cs.title, newContent⟩, [], st.isInCodeBlock⟩
    else st

/-- Lines 52-56: compute `trimmedLine` and skip blank lines and the bare
comment markers; `some t` means the line is retained as `t`. -/
def retainLine (line : Str) : Option Str :=
  let t := stripStar (trim line)
  if t = "/**".data ∨ t = "*/".data ∨ t = [] then none else some t

/-- Lines 58-120, the body of the loop for a retained `trimmedLine`:
toggle the fence flag, then either start a new section at an `@tag` line
(outside fences) or append the line to the buffer. -/
def stepRetained (st : PState) (t : Str) : PState :=
  let b1 := if startsWith t "```".data then !st.isInCodeBlock else st.isInCodeBlock
  if startsWith t "@".data && !b1 then
    let st2 := saveCurrentSection ⟨st.sections, st.currentSection, st.buffer, b1⟩
    let tag := (List.takeWhile (fun c => c != ' ') t).drop 1
    ⟨st2.sections, some (sectionForTag tag), [t.drop (tag.length + 2)],
      st2.isInCodeBlock⟩
  else
    ⟨st.sections, some (st.currentSection.getD descSection),
      st.buffer ++ [t], b1⟩

/-- One iteration of the `for (const line of lines)` loop (lines 51-121). -/
def stepLine (st : PState) (line : Str) : PState :=
  match retainLine line with
  | none => st
  | some t => stepRetained st t

/-- The initial loop state (lines 25-30). -/
def initState : PState := ⟨[], none, [], false⟩

/-- Model of `parseJSDoc` (lines 24-125). -/
def parseJSDoc (docString : Str) : List DocSection :=
  (saveCurrentSection ((splitNL docString).foldl stepLine initState)).sections

/-- The result of `extractDocsAndCode` (interface `SnippetContent`). -/
structure SnippetContent where
  docs : List DocSection
  code : Str
  deriving DecidableEq

/-- The mutable state of `extractDocsAndCode`'s loop (lines 129-131). -/
structure EState where
  docs : Str
  code : Str
  isInJSDoc : Bool
  deriving DecidableEq

/-- One iteration of the loop of lines 133-153: a line opening `/**` goes to
`docs` and sets the flag; inside the block a line starting `*/` goes to `docs`
and clears it; other lines go to `docs` or `code` by the flag. -/
def extractStep (st : EState) (line : Str) : EState :=
  if startsWith (trim line) "/**".data then
    ⟨st.docs ++ line ++ ['\n'], st.code, true⟩
  else if st.isInJSDoc && startsWith (trim line) "*/".data then
    ⟨st.docs ++ line ++ ['\n'], st.code, false⟩
  else if st.isInJSDoc then
    ⟨st.docs ++ line ++ ['\n'], st.code, st.isInJSDoc⟩
  else
    ⟨st.docs, st.code ++ line ++ ['\n'], st.isInJSDoc⟩

/-- Model of `extractDocsAndCode` (lines 127-156). -/
def extractDocsAndCode (content : Str) : SnippetContent :=
  let st := (splitNL content).foldl extractStep ⟨[], [], false⟩
  ⟨parseJSDoc st.docs, st.code⟩

/-- The message of both `throw new Error("Snippet not found")` sites. -/
def nfMsg : Str := "Snippet not found".data

/-- The route `loader` (lines 158-175), with the filesystem read abstracted:
`readOutcome` is what `fs.readFileSync` would produce (`Except.error` models
any thrown I/O fault, caught by the `try`/`catch`). `snippet` is
`params["*"]`; `none` models `undefined`, and the empty string is falsy in
JavaScript, so both take the first `throw`. The `fileName` field of the JSON
response is presentation metadata and is not modelled. -/
def loaderResult (snippet : Option Str) (readOutcome : Except Str Str) :
    Except Str SnippetContent :=
  match snippet with
  | none => Except.error nfMsg
  | some s =>
    if s = [] then Except.error nfMsg
    else
      match readOutcome with
      | Except.error _ => Except.error nfMsg
      | Except.ok content => Except.ok (extractDocsAndCode content)

/-! ### Helper lemmas about the parser step -/

lemma stepLine_of_retain_none (st : PState) (line : Str)
    (h : retainLine line = none) : stepLine st line = st := by
  simp [stepLine, h]

lemma stepLine_of_retain_some (st : PState) (line t : Str)
    (h : retainLine line = some t) : stepLine st line = stepRetained st t := by
  simp [stepLine, h]

lemma startsWith_at_not_fence (t : Str) (h : startsWith t "@".data = true) :
    startsWith t "```".data = false := by
  match t with
  | [] => simp [startsWith] at h
  | c :: s =>
    have hc : c = '@' := by
      have h' : (c = '@' && startsWith s []) = true := h
      simpa using (Bool.and_elim_left h')
    subst hc
    show (('@' : Char) = '`' && startsWith s ['`', '`']) = false
    simp

lemma save_isInCodeBlock (st : PState) :
    (saveCurrentSection st).isInCodeBlock = st.isInCodeBlock := by
  unfold saveCurrentSection
  cases st.currentSection with
  | none => rfl
  | some cs => dsimp only; split <;> rfl

lemma stepRetained_noTag (S : List DocSection) (c : Option DocSection)
    (B : List Str) (b : Bool) (t : Str)
    (h : startsWith t "@".data = false) :
    stepRetained ⟨S, c, B, b⟩ t =
      ⟨S, some (c.getD descSection), B ++ [t],
        if startsWith t "```".data then !b else b⟩ := by
  unfold stepRetained
  simp [h]

lemma stepRetained_tag_inFence (S : List DocSection) (cs : DocSection)
    (B : List Str) (t : Str) (h : startsWith t "@".data = true) :
    stepRetained ⟨S, some cs, B, true⟩ t = ⟨S, some cs, B ++ [t], true⟩ := by
  unfold stepRetained
  simp [h, startsWith_at_not_fence t h]

/-! ### Helper lemmas about line splitting and the extract loop -/

/-- Append a newline to every element and concatenate (the effect of the
`docs += line + "\n"` / `code += line + "\n"` accumulation). -/
def joinAddNL : List Str → Str
  | [] => []
  | l :: ls => l ++ '\n' :: joinAddNL ls

lemma splitNL_ne_nil (s : Str) : splitNL s ≠ [] := by
  cases s with
  | nil => simp [splitNL]
  | cons c rest =>
    unfold splitNL
    cases splitNL rest with
    | nil => simp
    | cons l ls => split <;> (try split) <;> simp

lemma joinAddNL_splitNL (s : Str) : joinAddNL (splitNL s) = s ++ ['\n'] := by
  induction s with
  | nil => rfl
  | cons c rest ih =>
    cases hs : splitNL rest with
    | nil => exact absurd hs (splitNL_ne_nil rest)
    | cons l ls =>
      by_cases hc : c = '\n'
      · subst hc
        rw [show splitNL ('\n' :: rest) = [] :: l :: ls by
          unfold splitNL; rw [hs]; simp]
        show '\n' :: joinAddNL (l :: ls) = '\n' :: rest ++ ['\n']
        rw [← hs, ih]
        rfl
      · rw [show splitNL (c :: rest) = (c :: l) :: ls by
          unfold splitNL; rw [hs]; simp [hc]]
        show (c :: l) ++ '\n' :: joinAddNL ls = (c :: rest) ++ ['\n']
        have : joinAddNL (l :: ls) = rest ++ ['\n'] := by rw [← hs, ih]
        simpa using this

/-- Which lines the loop of lines 133-153 sends to `code`: the same
classification the loop performs, read off line by line. -/
def codeLinesFrom : Bool → List Str → List Str
  | _, [] => []
  | b, l :: ls =>
    if startsWith (trim l) "/**".data then codeLinesFrom true ls
    else if b && startsWith (trim l) "*/".data then codeLinesFrom false ls
    else if b then codeLinesFrom b ls
    else l :: codeLinesFrom b ls

/-- The lines of `content` that `extractDocsAndCode` sends to `code`. -/
def codeLines (content : Str) : List Str :=
  codeLinesFrom false (splitNL content)

lemma extract_fold_code (ls : List Str) :
    ∀ (d c : Str) (b : Bool),
      (List.foldl extractStep ⟨d, c, b⟩ ls).code =
        c ++ joinAddNL (codeLinesFrom b ls) := by
  induction ls with
  | nil => intro d c b; simp [joinAddNL, codeLinesFrom]
  | cons l ls ih =>
    intro d c b
    cases h1 : startsWith (trim l) "/**".data with
    | true => simp [extractStep, codeLinesFrom, h1, ih]
    | false =>
      cases hb : b with
      | true =>
        cases h2 : startsWith (trim l) "*/".data with
        | true => simp [extractStep, codeLinesFrom, h1, h2, ih]
        | false => simp [extractStep, codeLinesFrom, h1, h2, ih]
      | false =>
        simp [extractStep, codeLinesFrom, h1, ih, joinAddNL, List.append_assoc]

lemma extract_fold_noopen (ls : List Str) :
    ∀ (d c : Str),
      (∀ l ∈ ls, startsWith (trim l) "/**".data = false) →
      List.foldl extractStep ⟨d, c, false⟩ ls = ⟨d, c ++ joinAddNL ls, false⟩ := by
  induction ls with
  | nil => intro d c _; simp [joinAddNL]
  | cons l ls ih =>
    intro d c h
    have h1 : startsWith (trim l) "/**".data = false := h l (by simp)
    have hstep : extractStep ⟨d, c, false⟩ l = ⟨d, c ++ l ++ ['\n'], false⟩ := by
      simp [extractStep, h1]
    rw [List.foldl_cons, hstep, ih _ _ (fun x hx => h x (by simp [hx]))]
    simp [joinAddNL, List.append_assoc]

/-! ### Claim theorems -/

/-- The scenario input of C1:
`"/**\n * Does X.\n * @example\n * foo()\n */\n const x = 1;"`. -/
def scenarioInput : Str :=
  "/**\n * Does X.\n * @example\n * foo()\n */\nconst x = 1;".data

/-- C1: on the scenario input the pipeline does NOT return the two sections
the claim states. The description section and the residual code match the
claim, but the example section's content is `"```tsx\nfoo()\n/\n```"`: the
close-marker line `" */"` trims to `"*/"`, the `replace(/^\*\s?/, "")` of
line 52 strips its leading `*`, and the remnant `"/"` is neither blank nor
one of the markers checked on line 55, so it is buffered into the example
section's content instead of being discarded. -/
theorem c1_scenario_actual_output :
    extractDocsAndCode scenarioInput =
      ⟨[⟨SectionType.description, "Description".data, "Does X.".data⟩,
        ⟨SectionType.example, "Example Usage".data,
          "```tsx\nfoo()\n/\n```".data⟩],
        "const x = 1;\n".data⟩ ∧
    extractDocsAndCode scenarioInput ≠
      ⟨[⟨SectionType.description, "Description".data, "Does X.".data⟩,
        ⟨SectionType.example, "Example Usage".data, "```tsx\nfoo()\n```".data⟩],
        "const x = 1;\n".data⟩ := by
  constructor
  · decide
  · decide

/-- C2: a line whose trimmed, star-stripped form is blank or exactly one of
the bare comment markers `/**`, `*/` is discarded: the loop step leaves the
whole parser state unchanged, so the line contributes nothing to any
section's content. -/
theorem c2_marker_blank_lines_discarded (st : PState) (line : Str)
    (h : stripStar (trim line) = "/**".data ∨ stripStar (trim line) = "*/".data ∨
      stripStar (trim line) = []) :
    stepLine st line = st := by
  apply stepLine_of_retain_none
  unfold retainLine
  exact if_pos h

theorem c2_witness :
    (stripStar (trim "   ".data) = "/**".data ∨
      stripStar (trim "   ".data) = "*/".data ∨
      stripStar (trim "   ".data) = []) ∧
    stepLine ⟨[], some descSection, ["hi".data], false⟩ "   ".data =
      ⟨[], some descSection, ["hi".data], false⟩ :=
  ⟨by decide, c2_marker_blank_lines_discarded _ _ (by decide)⟩

/-- C3 counterexample: on `"@param\n@returns x"` the first emitted section
has EMPTY content — the `@param` tag line seeds the buffer with the empty
remainder string, so `buffer.length > 0` holds at flush time and the section
is appended even though its accumulated text is empty. -/
theorem c3_counterexample :
    parseJSDoc "@param\n@returns x".data =
      [⟨SectionType.param, "Parameters".data, []⟩,
        ⟨SectionType.returns, "Returns".data, "x".data⟩] ∧
    ∃ s ∈ parseJSDoc "@param\n@returns x".data, s.content = [] := by
  constructor
  · decide
  · decide

/-- C3 amended: the flush guard is on the number of buffered LINES, not on
the accumulated text: a section is never appended when the line buffer is
empty (the flush is then a no-op), but a buffer holding a single empty
string passes the guard, so emitted sections can have empty content. -/
theorem c3_empty_buffer_flush_noop (st : PState) (h : st.buffer = []) :
    saveCurrentSection st = st := by
  unfold saveCurrentSection
  cases st.currentSection with
  | none => rfl
  | some cs => simp [h]

theorem c3_witness :
    (PState.mk [] (some descSection) [] true).buffer = [] ∧
    saveCurrentSection ⟨[], some descSection, [], true⟩ =
      ⟨[], some descSection, [], true⟩ :=
  ⟨rfl, c3_empty_buffer_flush_noop _ rfl⟩

/-- C5: flushing an example section with a non-empty line buffer appends
exactly one section whose content is the joined-and-trimmed buffer, wrapped
as `"```tsx\n" + content + "\n```"` when it does not already start with the
fence marker, and passed through unchanged when it does. -/
theorem c5_example_flush (st : PState) (cs : DocSection)
    (h1 : st.currentSection = some cs) (h2 : cs.type = SectionType.example)
    (h3 : st.buffer ≠ []) :
    (saveCurrentSection st).sections =
      st.sections ++ [⟨SectionType.example, cs.title,
        if startsWith (trim (joinNL st.buffer)) "```".data then
          trim (joinNL st.buffer)
        else "```tsx\n".data ++ trim (joinNL st.buffer) ++ "\n```".data⟩] := by
  unfold saveCurrentSection
  rw [h1]
  have hlen : st.buffer.length > 0 := List.length_pos.mpr h3
  simp [hlen, h2]

theorem c5_witness :
    (PState.mk [] (some ⟨SectionType.example, "Example Usage".data, []⟩)
        ["foo()".data] false).currentSection =
      some ⟨SectionType.example, "Example Usage".data, []⟩ ∧
    (PState.mk [] (some ⟨SectionType.example, "Example Usage".data, []⟩)
        ["foo()".data] false).buffer ≠ [] ∧
    (saveCurrentSection ⟨[], some ⟨SectionType.example, "Example Usage".data, []⟩,
        ["foo()".data], false⟩).sections =
      ([] : List DocSection) ++ [⟨SectionType.example, "Example Usage".data,
        if startsWith (trim (joinNL ["foo()".data])) "```".data then
          trim (joinNL ["foo()".data])
        else "```tsx\n".data ++ trim (joinNL ["foo()".data]) ++ "\n```".data⟩] :=
  ⟨rfl, by decide, c5_example_flush _ _ rfl rfl (by decide)⟩

/-- C7: a retained `@`-prefixed line encountered while the fence flag is set
(i.e. inside a fenced code region) does not start a new section: no flush
happens, the section list and current section are unchanged, and the line is
appended to the current section's buffer. -/
theorem c7_tag_inside_fence_buffered (st : PState) (line t : Str)
    (cs : DocSection) (hr : retainLine line = some t)
    (ht : startsWith t "@".data = true) (hb : st.isInCodeBlock = true)
    (hcs : st.currentSection = some cs) :
    stepLine st line = ⟨st.sections, some cs, st.buffer ++ [t], true⟩ := by
  rw [stepLine_of_retain_some st line t hr]
  have : st = ⟨st.sections, some cs, st.buffer, true⟩ := by
    cases st
    simp_all
  rw [this]
  exact stepRetained_tag_inFence _ _ _ _ ht

theorem c7_witness :
    retainLine " * @note inside".data = some "@note inside".data ∧
    startsWith "@note inside".data "@".data = true ∧
    (PState.mk [] (some ⟨SectionType.example, "Example Usage".data, []⟩)
        ["```".data] true).isInCodeBlock = true ∧
    stepLine ⟨[], some ⟨SectionType.example, "Example Usage".data, []⟩,
        ["```".data], true⟩ " * @note inside".data =
      ⟨[], some ⟨SectionType.example, "Example Usage".data, []⟩,
        ["```".data] ++ ["@note inside".data], true⟩ :=
  ⟨by decide, by decide, rfl,
    c7_tag_inside_fence_buffered _ _ _ _ (by decide) (by decide) rfl rfl⟩

/-- C9: whenever the abstracted file read fails — whatever the fault `e` —
the loader returns the single opaque error "Snippet not found" (the
`try`/`catch` of lines 168-174 makes no distinction between faults), and the
parser pipeline itself is total: `extractDocsAndCode` returns a (possibly
empty) section list and a code text for every input. -/
theorem c9_loader_error_opaque :
    (∀ (snippet : Option Str) (e : Str),
      loaderResult snippet (Except.error e) = Except.error nfMsg) ∧
    (∀ s : Str, ∃ docs code, extractDocsAndCode s = ⟨docs, code⟩) := by
  constructor
  · intro snippet e
    cases snippet with
    | none => rfl
    | some s =>
      unfold loaderResult
      by_cases h : s = [] <;> simp [h]
  · intro s
    exact ⟨_, _, rfl⟩

/-- C6: when no line of the input trim-starts with the block-open marker
`/**`, the flag of the extract loop never turns on, so the section list is
empty and the code text is the whole input, each line rejoined with a
newline (hence `input ++ "\n"`); no failure mode exists. -/
theorem c6_no_block_passthrough (input : Str)
    (h : ∀ l ∈ splitNL input, startsWith (trim l) "/**".data = false) :
    (extractDocsAndCode input).docs = [] ∧
    (extractDocsAndCode input).code = input ++ ['\n'] := by
  have hfold := extract_fold_noopen (splitNL input) [] [] h
  constructor
  · show parseJSDoc
      (List.foldl extractStep ⟨[], [], false⟩ (splitNL input)).docs = []
    rw [hfold]
    rfl
  · show (List.foldl extractStep ⟨[], [], false⟩ (splitNL input)).code =
      input ++ ['\n']
    rw [hfold]
    show [] ++ joinAddNL (splitNL input) = input ++ ['\n']
    rw [List.nil_append, joinAddNL_splitNL]

theorem c6_witness :
    (∀ l ∈ splitNL "const x = 1;\nexport default x;".data,
      startsWith (trim l) "/**".data = false) ∧
    (extractDocsAndCode "const x = 1;\nexport default x;".data).docs = [] ∧
    (extractDocsAndCode "const x = 1;\nexport default x;".data).code =
      "const x = 1;\nexport default x;".data ++ ['\n'] :=
  ⟨by decide, c6_no_block_passthrough _ (by decide)⟩

/-- C10 counterexample: for the input `"/**"` the single line is sent to
`docs`, so the returned code text is empty — it does not end with a newline
character, refuting "it always ends with `\n`". -/
theorem c10_counterexample :
    (extractDocsAndCode "/**".data).code = [] ∧
    (extractDocsAndCode "/**".data).code.getLast? ≠ some '\n' := by
  constructor
  · decide
  · decide

/-- C10 amended: the code field equals the concatenation of every
non-doc-block line each followed by a single newline (so the empty input
yields `"\n"`, and any input with at least one non-doc-block line ends with
`"\n"`); but when every line belongs to the doc block the concatenation is
empty and code does not end with a newline. -/
theorem c10_code_is_nondoc_lines_joined :
    (∀ input : Str,
      (extractDocsAndCode input).code = joinAddNL (codeLines input)) ∧
    (extractDocsAndCode []).code = ['\n'] := by
  constructor
  · intro input
    show (List.foldl extractStep ⟨[], [], false⟩ (splitNL input)).code =
      joinAddNL (codeLines input)
    rw [extract_fold_code (splitNL input) [] [] false]
    rw [List.nil_append]
    rfl
  · decide

/-! ### No-tag fold lemmas for C4 -/

/-- The lines of a doc string that survive the skip filter of lines 52-56,
in their trimmed, star-stripped form. -/
def retainedLines (s : Str) : List Str :=
  (splitNL s).filterMap retainLine

lemma stepRetained_noTag_some (S : List DocSection) (cs : DocSection)
    (B : List Str) (b : Bool) (t : Str)
    (h : startsWith t "@".data = false) :
    stepRetained ⟨S, some cs, B, b⟩ t =
      ⟨S, some cs, B ++ [t], if startsWith t "```".data then !b else b⟩ := by
  rw [stepRetained_noTag S (some cs) B b t h]
  rfl

lemma stepRetained_noTag_none (S : List DocSection) (B : List Str) (b : Bool)
    (t : Str) (h : startsWith t "@".data = false) :
    stepRetained ⟨S, none, B, b⟩ t =
      ⟨S, some descSection, B ++ [t],
        if startsWith t "```".data then !b else b⟩ := by
  rw [stepRetained_noTag S none B b t h]
  rfl

lemma fold_noTag_some (ls : List Str) :
    ∀ (S : List DocSection) (cs : DocSection) (B : List Str) (b : Bool),
      (∀ l ∈ ls, ∀ t, retainLine l = some t → startsWith t "@".data = false) →
      ∃ b', List.foldl stepLine ⟨S, some cs, B, b⟩ ls =
        ⟨S, some cs, B ++ ls.filterMap retainLine, b'⟩ := by
  induction ls with
  | nil => intro S cs B b _; exact ⟨b, by simp⟩
  | cons l ls ih =>
    intro S cs B b h
    cases hr : retainLine l with
    | none =>
      rw [List.foldl_cons, stepLine_of_retain_none _ _ hr]
      have := ih S cs B b (fun x hx => h x (by simp [hx]))
      simpa [List.filterMap_cons, hr] using this
    | some t =>
      have ht : startsWith t "@".data = false := h l (by simp) t hr
      rw [List.foldl_cons, stepLine_of_retain_some _ _ _ hr,
        stepRetained_noTag_some S cs B b t ht]
      obtain ⟨b', hb'⟩ :=
        ih S cs (B ++ [t]) (if startsWith t "```".data then !b else b)
          (fun x hx => h x (by simp [hx]))
      refine ⟨b', ?_⟩
      rw [hb']
      simp [List.filterMap_cons, hr]

lemma fold_noTag_none (ls : List Str) :
    ∀ b : Bool,
      (∀ l ∈ ls, ∀ t, retainLine l = some t → startsWith t "@".data = false) →
      ls.filterMap retainLine ≠ [] →
      ∃ b', List.foldl stepLine ⟨[], none, [], b⟩ ls =
        ⟨[], some descSection, ls.filterMap retainLine, b'⟩ := by
  induction ls with
  | nil => intro b _ hne; simp at hne
  | cons l ls ih =>
    intro b h hne
    cases hr : retainLine l with
    | none =>
      rw [List.foldl_cons, stepLine_of_retain_none _ _ hr]
      have hne' : ls.filterMap retainLine ≠ [] := by
        simpa [List.filterMap_cons, hr] using hne
      have := ih b (fun x hx => h x (by simp [hx])) hne'
      simpa [List.filterMap_cons, hr] using this
    | some t =>
      have ht : startsWith t "@".data = false := h l (by simp) t hr
      rw [List.foldl_cons, stepLine_of_retain_some _ _ _ hr,
        stepRetained_noTag_none [] [] b t ht]
      simp only [List.nil_append]
      obtain ⟨b', hb'⟩ :=
        fold_noTag_some ls [] descSection [t]
          (if startsWith t "```".data then !b else b)
          (fun x hx => h x (by simp [hx]))
      refine ⟨b', ?_⟩
      rw [hb']
      simp [List.filterMap_cons, hr]

/-- C4 counterexample: `"/**\n**/"` contains zero `@`-tag lines, yet
`parseJSDoc` returns NO section at all (every line is discarded by the
blank/marker filter), not exactly one description section. -/
theorem c4_counterexample :
    parseJSDoc "/**\n**/".data = [] ∧
    (∀ l ∈ splitNL "/**\n**/".data,
      startsWith (stripStar (trim l)) "@".data = false) := by
  constructor
  · decide
  · decide

/-- C4 amended: for a doc block with zero `@`-tag lines AND at least one
line surviving the blank/marker filter, `parseJSDoc` returns exactly one
description section whose content is the newline-join of the surviving
trimmed, star-stripped lines, trimmed; with no surviving line it returns no
section at all. -/
theorem c4_no_tags_single_description (s : Str)
    (hne : retainedLines s ≠ [])
    (hnt : ∀ t ∈ retainedLines s, startsWith t "@".data = false) :
    parseJSDoc s =
      [⟨SectionType.description, "Description".data,
        trim (joinNL (retainedLines s))⟩] := by
  have h' : ∀ l ∈ splitNL s, ∀ t, retainLine l = some t →
      startsWith t "@".data = false := by
    intro l hl t hr
    exact hnt t (List.mem_filterMap.mpr ⟨l, hl, hr⟩)
  obtain ⟨b', hb'⟩ := fold_noTag_none (splitNL s) false h' hne
  unfold parseJSDoc initState
  rw [hb']
  have hlen : ((splitNL s).filterMap retainLine).length > 0 :=
    List.length_pos.mpr hne
  unfold saveCurrentSection
  simp [hlen, descSection, retainedLines]

theorem c4_witness :
    retainedLines " * Hello\n * world".data ≠ [] ∧
    (∀ t ∈ retainedLines " * Hello\n * world".data,
      startsWith t "@".data = false) ∧
    parseJSDoc " * Hello\n * world".data =
      [⟨SectionType.description, "Description".data,
        trim (joinNL (retainedLines " * Hello\n * world".data))⟩] :=
  ⟨by decide, by decide,
    c4_no_tags_single_description _ (by decide) (by decide)⟩

/-! ### Whitespace and line-splitting lemmas for C8 -/

lemma dropWhile_length_le (p : Char → Bool) (l : Str) :
    (List.dropWhile p l).length ≤ l.length := by
  induction l with
  | nil => simp
  | cons x xs ih =>
    rw [List.dropWhile_cons]
    by_cases hp : p x = true
    · rw [if_pos hp]; exact Nat.le_trans ih (Nat.le_succ _)
    · rw [if_neg hp]

lemma dropWhile_eq_self_of_length (p : Char → Bool) (l : Str)
    (h : (List.dropWhile p l).length = l.length) : List.dropWhile p l = l := by
  cases l with
  | nil => simp
  | cons x xs =>
    rw [List.dropWhile_cons] at h ⊢
    by_cases hp : p x = true
    · rw [if_pos hp] at h ⊢
      have hle := dropWhile_length_le p xs
      simp at h
      exact absurd h (by omega)
    · rw [if_neg hp]

lemma head_false_of_dropWhile_eq (p : Char → Bool) (x : Char) (xs : Str)
    (h : List.dropWhile p (x :: xs) = x :: xs) : p x = false := by
  cases hp : p x with
  | false => rfl
  | true =>
    rw [List.dropWhile_cons, hp, if_pos rfl] at h
    have hlen := congrArg List.length h
    have hle := dropWhile_length_le p xs
    simp at hlen
    omega

lemma trim_eq_parts (a : Str) (ha : trim a = a) :
    a.dropWhile isWS = a ∧ a.reverse.dropWhile isWS = a.reverse := by
  have hlen := congrArg List.length ha
  unfold trim at hlen
  rw [List.length_reverse] at hlen
  have u1 := dropWhile_length_le isWS ((a.dropWhile isWS).reverse)
  rw [List.length_reverse] at u1
  have u2 := dropWhile_length_le isWS a
  have e1 : (a.dropWhile isWS).length = a.length := by omega
  have p1 : a.dropWhile isWS = a := dropWhile_eq_self_of_length isWS a e1
  rw [p1] at hlen
  refine ⟨p1, dropWhile_eq_self_of_length isWS a.reverse ?_⟩
  rw [List.length_reverse]
  exact hlen

lemma trim_param_append (a : Str) (ha : trim a = a) (hne : a ≠ []) :
    trim ("@param ".data ++ a) = "@param ".data ++ a := by
  obtain ⟨p1, p2⟩ := trim_eq_parts a ha
  have hAt : isWS '@' = false := by decide
  have hfront : ("@param ".data ++ a).dropWhile isWS = "@param ".data ++ a := by
    show List.dropWhile isWS ('@' :: ("param ".data ++ a)) =
      '@' :: ("param ".data ++ a)
    rw [List.dropWhile_cons, hAt]
    simp
  obtain ⟨x, xs, hx⟩ : ∃ x xs, a.reverse = x :: xs := by
    cases hr : a.reverse with
    | nil => exact absurd (by simpa using congrArg List.reverse hr) hne
    | cons x xs => exact ⟨x, xs, rfl⟩
  have hpx : isWS x = false := by
    apply head_false_of_dropWhile_eq isWS x xs
    rw [← hx]
    exact p2
  have hback : ("@param ".data ++ a).reverse.dropWhile isWS =
      ("@param ".data ++ a).reverse := by
    rw [List.reverse_append, hx]
    show List.dropWhile isWS (x :: (xs ++ "@param ".data.reverse)) =
      x :: (xs ++ "@param ".data.reverse)
    rw [List.dropWhile_cons, hpx]
    simp
  unfold trim
  rw [hfront, hback, List.reverse_reverse]

lemma retainLine_param (a : Str) (ha : trim a = a) (hne : a ≠ []) :
    retainLine ("@param ".data ++ a) = some ("@param ".data ++ a) := by
  show (if stripStar (trim ("@param ".data ++ a)) = "/**".data ∨
      stripStar (trim ("@param ".data ++ a)) = "*/".data ∨
      stripStar (trim ("@param ".data ++ a)) = [] then none
    else some (stripStar (trim ("@param ".data ++ a)))) =
    some ("@param ".data ++ a)
  rw [trim_param_append a ha hne]
  rw [show stripStar ("@param ".data ++ a) = "@param ".data ++ a from rfl]
  rw [if_neg]
  rintro (hc | hc | hc)
  · exact absurd (show (some '@' : Option Char) = some '/' from
      congrArg List.head? hc) (by decide)
  · exact absurd (show (some '@' : Option Char) = some '*' from
      congrArg List.head? hc) (by decide)
  · exact absurd (show (some '@' : Option Char) = none from
      congrArg List.head? hc) (by decide)

lemma splitNL_no_nl (l : Str) (h : '\n' ∉ l) : splitNL l = [l] := by
  induction l with
  | nil => rfl
  | cons c cs ih =>
    have hc : ¬c = '\n' := fun e => h (e ▸ List.mem_cons_self c cs)
    have hcs : '\n' ∉ cs := fun m => h (List.mem_cons_of_mem c m)
    unfold splitNL
    rw [ih hcs]
    simp [hc]

lemma splitNL_cons (c : Char) (rest : Str) :
    splitNL (c :: rest) =
      match splitNL rest with
      | [] => [[]]
      | l :: ls => if c = '\n' then [] :: l :: ls else (c :: l) :: ls := rfl

lemma splitNL_append (l m : Str) (h : '\n' ∉ l) :
    splitNL (l ++ '\n' :: m) = l :: splitNL m := by
  induction l with
  | nil =>
    show splitNL ('\n' :: m) = [] :: splitNL m
    rw [splitNL_cons]
    cases hs : splitNL m with
    | nil => exact absurd hs (splitNL_ne_nil m)
    | cons x xs => simp
  | cons c cs ih =>
    have hc : ¬c = '\n' := fun e => h (e ▸ List.mem_cons_self c cs)
    have hcs : '\n' ∉ cs := fun m2 => h (List.mem_cons_of_mem c m2)
    show splitNL (c :: (cs ++ '\n' :: m)) = (c :: cs) :: splitNL m
    rw [splitNL_cons, ih hcs]
    simp [hc]

lemma splitNL_joinNL (ls : List Str) (hne : ls ≠ [])
    (h : ∀ l ∈ ls, '\n' ∉ l) : splitNL (joinNL ls) = ls := by
  induction ls with
  | nil => exact absurd rfl hne
  | cons l rest ih =>
    cases rest with
    | nil => exact splitNL_no_nl l (h l (by simp))
    | cons l2 rest2 =>
      show splitNL (l ++ '\n' :: joinNL (l2 :: rest2)) = l :: l2 :: rest2
      rw [splitNL_append _ _ (h l (by simp))]
      rw [ih (by simp) (fun x hx => h x (by simp [hx]))]

/-- A doc block consisting of one `@param <arg>` line per argument. -/
def paramBlock (args : List Str) : Str :=
  joinNL (args.map (fun a => "@param ".data ++ a))

lemma stepRetained_param (S : List DocSection) (c : Option DocSection)
    (B : List Str) (a : Str) :
    stepRetained ⟨S, c, B, false⟩ ("@param ".data ++ a) =
      ⟨(saveCurrentSection ⟨S, c, B, false⟩).sections,
        some ⟨SectionType.param, "Parameters".data, []⟩, [a],
        (saveCurrentSection ⟨S, c, B, false⟩).isInCodeBlock⟩ := rfl

lemma save_param_sections (S : List DocSection) (b : Bool) (x : Str)
    (hx : trim x = x) :
    (saveCurrentSection
        ⟨S, some ⟨SectionType.param, "Parameters".data, []⟩, [x], b⟩).sections =
      S ++ [⟨SectionType.param, "Parameters".data, x⟩] := by
  unfold saveCurrentSection
  simp [hx]
  rw [show joinNL [x] = x from rfl, hx]

lemma c8_fold (args : List Str) :
    ∀ (S : List DocSection) (a : Str), trim a = a → a ≠ [] →
      (∀ x ∈ args, trim x = x ∧ x ≠ []) →
      (saveCurrentSection (List.foldl stepLine
          ⟨S, some ⟨SectionType.param, "Parameters".data, []⟩, [a], false⟩
          (args.map (fun x => "@param ".data ++ x)))).sections =
        S ++ ⟨SectionType.param, "Parameters".data, a⟩ ::
          args.map (fun x => ⟨SectionType.param, "Parameters".data, x⟩) := by
  induction args with
  | nil =>
    intro S a ha _ _
    show (saveCurrentSection
        ⟨S, some ⟨SectionType.param, "Parameters".data, []⟩, [a], false⟩).sections =
      S ++ [⟨SectionType.param, "Parameters".data, a⟩]
    exact save_param_sections S false a ha
  | cons x rest ih =>
    intro S a ha hane h
    have hx := h x (by simp)
    rw [List.map_cons, List.foldl_cons]
    have hstep : stepLine
        ⟨S, some ⟨SectionType.param, "Parameters".data, []⟩, [a], false⟩
        ("@param ".data ++ x) =
        ⟨S ++ [⟨SectionType.param, "Parameters".data, a⟩],
          some ⟨SectionType.param, "Parameters".data, []⟩, [x], false⟩ := by
      rw [stepLine_of_retain_some _ _ _ (retainLine_param x hx.1 hx.2)]
      rw [stepRetained_param]
      rw [save_param_sections S false a ha, save_isInCodeBlock]
    rw [hstep]
    have hih := ih
      (S ++ [(⟨SectionType.param, "Parameters".data, a⟩ : DocSection)]) x
      hx.1 hx.2 (fun y hy => h y (by simp [hy]))
    rw [hih]
    simp

/-- C8: a doc block made of n `@param <arg>` lines (each argument trimmed,
non-empty, single-line) yields exactly n separate param sections titled
"Parameters", one per tag line, in source order — no sorting, deduplication
or merging of same-kind sections. -/
theorem c8_param_tags_separate_sections (args : List Str)
    (h : ∀ a ∈ args, trim a = a ∧ a ≠ [] ∧ '\n' ∉ a) :
    parseJSDoc (paramBlock args) =
      args.map (fun a => ⟨SectionType.param, "Parameters".data, a⟩) := by
  cases args with
  | nil => decide
  | cons a rest =>
    have h0 := h a (by simp)
    have hsplit : splitNL (paramBlock (a :: rest)) =
        (a :: rest).map (fun x => "@param ".data ++ x) := by
      apply splitNL_joinNL
      · simp
      · intro l hl
        obtain ⟨x, hx, rfl⟩ := List.mem_map.mp hl
        intro hmem
        rcases List.mem_append.mp hmem with hm | hm
        · exact absurd hm (by decide)
        · exact (h x hx).2.2 hm
    unfold parseJSDoc
    rw [hsplit, List.map_cons, List.foldl_cons]
    have hstep : stepLine initState ("@param ".data ++ a) =
        ⟨[], some ⟨SectionType.param, "Parameters".data, []⟩, [a], false⟩ := by
      rw [stepLine_of_retain_some _ _ _ (retainLine_param a h0.1 h0.2.1)]
      rfl
    rw [hstep]
    have := c8_fold rest [] a h0.1 h0.2.1
      (fun y hy => ⟨(h y (by simp [hy])).1, (h y (by simp [hy])).2.1⟩)
    simpa using this

theorem c8_witness :
    (∀ a ∈ ["x".data, "y".data], trim a = a ∧ a ≠ [] ∧ '\n' ∉ a) ∧
    parseJSDoc (paramBlock ["x".data, "y".data]) =
      ["x".data, "y".data].map
        (fun a => ⟨SectionType.param, "Parameters".data, a⟩) :=
  ⟨by decide, c8_param_tags_separate_sections _ (by decide)⟩
